import Mathlib

/-!
Verification development for the helpline pairing-and-invitation engine.

The pairing store (`conversations` table, `core/conversations.py`) is
embedded as a list of rows keyed by `client` with a nullable `operator`
column.  SQL reads (`SELECT ... WHERE client_chat_id = %s OR
operator_chat_id = %s` with `fetchone`) become `List.find?` over the row
list; `INSERT ... ON CONFLICT (client_chat_id) DO UPDATE ... WHERE
conversations.operator_chat_id IS NULL` becomes a first-match structural
recursion; `DELETE ... RETURNING` becomes a `find?` plus `filter`.
Chat identifiers are integers (`Int`), matching the messenger ids the
code stores.
-/

namespace Helpline

/-- One row of the `conversations` table: `client_chat_id` (primary key)
and nullable `operator_chat_id`. -/
structure PairingRow where
  client : Int
  operator : Option Int
deriving DecidableEq, Repr

/-- The `conversations` relation, as the ordered list of its rows. -/
abbrev PairingState := List PairingRow

/-- The `WHERE client_chat_id = %s OR operator_chat_id = %s` condition of
`_get_conversing_for_share`. -/
def rowMatches (chatId : Int) (r : PairingRow) : Bool :=
  r.client == chatId || r.operator == some chatId

/-- `ConversationsController.get_conversing` (conversations.py:35-94):
fetch the row touching `chatId` in either role, defaulting to
`(None, None)`. -/
def getConversing (s : PairingState) (chatId : Int) : Option Int × Option Int :=
  match s.find? (rowMatches chatId) with
  | some r => (some r.client, r.operator)
  | none => (none, none)

/-- `ConversationsController.request_conversation_with_locking`
(conversations.py:130-145): `0` created, `1` requested already,
`2` in a conversation already.  Returns the result code and the state
after the transaction. -/
def requestConversation (s : PairingState) (c : Int) : Nat × PairingState :=
  match getConversing s c with
  | (none, _) => (0, s ++ [⟨c, none⟩])
  | (some _, none) => (1, s)
  | (some _, some _) => (2, s)

/-- The `INSERT INTO conversations ... ON CONFLICT (client_chat_id) DO
UPDATE SET operator_chat_id = excluded.operator_chat_id WHERE
conversations.operator_chat_id IS NULL` statement of
`begin_conversation_with_locking` (conversations.py:203-207).
Returns the affected row count and the new state. -/
def upsertPairing : PairingState → Int → Int → Nat × PairingState
  | [], c, o => (1, [⟨c, some o⟩])
  | r :: rs, c, o =>
      if r.client == c then
        match r.operator with
        | none => (1, ⟨c, some o⟩ :: rs)
        | some _ => (0, r :: rs)
      else
        ((upsertPairing rs c o).1, r :: (upsertPairing rs c o).2)

/-- `ConversationsController.begin_conversation_with_locking`
(conversations.py:148-214).  Result codes: `0` OK, `1` client is
operating, `2` operator has requested a conversation, `3` operator is a
client elsewhere, `4` operator is operating elsewhere, `5` client
already paired. -/
def beginConversation (s : PairingState) (c o : Int) : Nat × PairingState :=
  if (getConversing s c).2 == some c then
    (1, s)
  else
    match getConversing s o with
    | (some _, none) => (2, s)
    | (some c2, some _) => if c2 == o then (3, s) else (4, s)
    | (none, _) =>
        if (upsertPairing s c o).1 > 0 then (0, (upsertPairing s c o).2) else (5, s)

/-- `ConversationsController.end_conversation_or_cancel_request_with_plocking`
(conversations.py:216-246): `DELETE ... WHERE client_chat_id = %s
RETURNING operator_chat_id`, then `fetchone()[0] or -1` when a row was
deleted, `None` otherwise.  Python's `or` yields `-1` both for a null
operator and for operator id `0` (falsy). -/
def endOrCancel (s : PairingState) (c : Int) : Option Int × PairingState :=
  match s.find? (fun r => r.client == c) with
  | some r =>
      (some (match r.operator with
             | some o => if o == 0 then -1 else o
             | none => -1),
       s.filter (fun r' => r'.client != c))
  | none => (none, s)

/-- The store operations a caller can run against the pairing table
(each under the table lock / row lock the code takes). -/
inductive StoreOp where
  | request (c : Int)
  | begin (c o : Int)
  | endOrCancel (c : Int)
deriving DecidableEq, Repr

/-- Apply one store operation, keeping only the state. -/
def applyOp (s : PairingState) : StoreOp → PairingState
  | .request c => (requestConversation s c).2
  | .begin c o => (beginConversation s c o).2
  | .endOrCancel c => (Helpline.endOrCancel s c).2

/-- Run a sequence of store operations from the empty relation. -/
def runOps (ops : List StoreOp) : PairingState :=
  ops.foldl applyOp []

/-- Compatibility relation between two pairing rows: distinct client keys,
no shared non-null operator, and neither row's operator is the other
row's client. -/
def RowsOk (a b : PairingRow) : Prop :=
  a.client ≠ b.client ∧
  ¬(a.operator.isSome ∧ a.operator = b.operator) ∧
  a.operator ≠ some b.client ∧
  b.operator ≠ some a.client

instance (a b : PairingRow) : Decidable (RowsOk a b) := by
  unfold RowsOk
  infer_instance

/-- The pairing-store invariant: all rows pairwise compatible. -/
def StateInv (s : PairingState) : Prop :=
  s.Pairwise RowsOk

instance (s : PairingState) : Decidable (StateInv s) := by
  unfold StateInv
  infer_instance

theorem rowsOk_symm : ∀ {a b : PairingRow}, RowsOk a b → RowsOk b a := by
  intro a b h
  obtain ⟨h1, h2, h3, h4⟩ := h
  refine ⟨fun hc => h1 hc.symm, ?_, h4, h3⟩
  intro ⟨hs, he⟩
  exact h2 ⟨he ▸ hs, he.symm⟩

theorem rowsOk_symmetric : Symmetric RowsOk := fun _ _ h => rowsOk_symm h

theorem rowMatches_iff {u : Int} {r : PairingRow} :
    rowMatches u r = true ↔ r.client = u ∨ r.operator = some u := by
  simp [rowMatches]

/-- Two compatible rows cannot both touch the same user. -/
theorem rowsOk_not_both_match {a b : PairingRow} {u : Int}
    (h : RowsOk a b) (ha : rowMatches u a) (hb : rowMatches u b) : False := by
  obtain ⟨h1, h2, h3, h4⟩ := h
  rcases rowMatches_iff.1 ha with ha' | ha' <;>
    rcases rowMatches_iff.1 hb with hb' | hb'
  · exact h1 (ha'.trans hb'.symm)
  · exact h4 (by rw [hb', ha'])
  · exact h3 (by rw [ha', hb'])
  · exact h2 ⟨by rw [ha']; rfl, ha'.trans hb'.symm⟩

/-- Under the invariant, at most one row touches a given user. -/
theorem touch_unique {s : PairingState} {u : Int} {a b : PairingRow}
    (hs : StateInv s) (hamem : a ∈ s) (hbmem : b ∈ s)
    (ha : rowMatches u a) (hb : rowMatches u b) : a = b := by
  by_contra hne
  exact rowsOk_not_both_match (hs.forall rowsOk_symmetric hamem hbmem hne) ha hb

/-- Under the invariant, `find?` over the touch predicate locates any
member row that touches the user. -/
theorem find?_rowMatches_eq {s : PairingState} {u : Int} {r : PairingRow}
    (hs : StateInv s) (hmem : r ∈ s) (hr : rowMatches u r) :
    s.find? (rowMatches u) = some r := by
  have hsome : (s.find? (rowMatches u)).isSome := by
    rw [List.find?_isSome]
    exact ⟨r, hmem, hr⟩
  obtain ⟨r', hr'⟩ := Option.isSome_iff_exists.1 hsome
  have := touch_unique hs (List.mem_of_find?_eq_some hr') hmem
    (List.find?_some hr') hr
  rw [hr', this]

/-- Step-1 of `begin_conversation_with_locking`: under the invariant the
fetched row's operator equals `c` exactly when `c` operates somewhere. -/
theorem getConversing_snd_eq_some_self {s : PairingState} {c : Int}
    (hs : StateInv s) :
    (getConversing s c).2 = some c ↔ ∃ r ∈ s, r.operator = some c := by
  constructor
  · intro h
    unfold getConversing at h
    rcases hfind : s.find? (rowMatches c) with _ | r
    · rw [hfind] at h; simp at h
    · rw [hfind] at h
      exact ⟨r, List.mem_of_find?_eq_some hfind, h⟩
  · rintro ⟨r, hmem, hop⟩
    have hr : rowMatches c r := by
      rw [rowMatches_iff]; exact Or.inr hop
    unfold getConversing
    rw [find?_rowMatches_eq hs hmem hr]
    exact hop

theorem getConversing_eq_none {s : PairingState} {u : Int} :
    s.find? (rowMatches u) = none ↔ ∀ r ∈ s, ¬(r.client = u ∨ r.operator = some u) := by
  rw [List.find?_eq_none]
  constructor
  · intro h r hmem hor
    exact h r hmem (rowMatches_iff.2 hor)
  · intro h r hmem hr
    exact h r hmem (rowMatches_iff.1 hr)

/-- When `getConversing` reports no row, no row touches the user. -/
theorem getConversing_fst_none {s : PairingState} {u : Int} {o1 : Option Int}
    (h : getConversing s u = (none, o1)) :
    ∀ r ∈ s, ¬(r.client = u ∨ r.operator = some u) := by
  unfold getConversing at h
  rcases hf : s.find? (rowMatches u) with _ | r
  · exact getConversing_eq_none.1 hf
  · rw [hf] at h
    simp at h

/-- `request_conversation_with_locking` preserves the invariant. -/
theorem requestConversation_inv {s : PairingState} {c : Int}
    (hs : StateInv s) : StateInv (requestConversation s c).2 := by
  unfold requestConversation
  split
  case _ o1 heq =>
    show List.Pairwise RowsOk (s ++ [⟨c, none⟩])
    rw [List.pairwise_append]
    refine ⟨hs, List.pairwise_singleton _ _, ?_⟩
    intro a hamem b hbmem
    have hno := getConversing_fst_none heq a hamem
    rw [List.mem_singleton] at hbmem
    subst hbmem
    refine ⟨fun hc => hno (Or.inl hc), ?_, fun ho => hno (Or.inr ho), by simp⟩
    intro ⟨hsome, heqop⟩
    rw [heqop] at hsome
    simp at hsome
  case _ => exact hs
  case _ => exact hs

/-- Rows of the upsert output are old rows or the written row. -/
theorem mem_upsertPairing {c o : Int} : ∀ {s : PairingState} {r : PairingRow},
    r ∈ (upsertPairing s c o).2 → r ∈ s ∨ r = ⟨c, some o⟩ := by
  intro s
  induction s with
  | nil =>
      intro r hr
      simp only [upsertPairing, List.mem_singleton] at hr
      exact Or.inr hr
  | cons hd tl ih =>
      intro r hr
      simp only [upsertPairing] at hr
      split at hr
      · split at hr
        · rcases List.mem_cons.1 hr with h | h
          · exact Or.inr h
          · exact Or.inl (List.mem_cons_of_mem _ h)
        · exact Or.inl hr
      · rcases List.mem_cons.1 hr with h | h
        · exact Or.inl (h ▸ List.mem_cons_self hd tl)
        · rcases ih h with h' | h'
          · exact Or.inl (List.mem_cons_of_mem _ h')
          · exact Or.inr h'

/-- The conditional upsert preserves the invariant, provided no row
touches the new operator `o` and no row's operator is the client `c`. -/
theorem upsertPairing_inv {c o : Int} : ∀ {s : PairingState},
    StateInv s →
    (∀ r ∈ s, ¬(r.client = o ∨ r.operator = some o)) →
    (∀ r ∈ s, r.operator ≠ some c) →
    StateInv (upsertPairing s c o).2 := by
  intro s
  induction s with
  | nil =>
      intro _ _ _
      exact List.pairwise_singleton _ _
  | cons hd tl ih =>
      intro hs hA hB
      rw [StateInv, List.pairwise_cons] at hs
      obtain ⟨hhd, htl⟩ := hs
      show StateInv (upsertPairing (hd :: tl) c o).2
      simp only [upsertPairing]
      split
      case _ hc =>
        have hcc : hd.client = c := by simpa using hc
        split
        case _ hop =>
          show List.Pairwise RowsOk (⟨c, some o⟩ :: tl)
          rw [List.pairwise_cons]
          refine ⟨?_, htl⟩
          intro b hbmem
          obtain ⟨h1, _, _, h4⟩ := hhd b hbmem
          have hAb := hA b (List.mem_cons_of_mem _ hbmem)
          refine ⟨fun h => h1 (hcc.symm ▸ h), ?_, ?_, ?_⟩
          · intro ⟨_, heq⟩
            exact hAb (Or.inr heq.symm)
          · intro h
            exact hAb (Or.inl (Option.some.inj h).symm)
          · intro h
            exact h4 (hcc ▸ h)
        case _ v hop =>
          show List.Pairwise RowsOk (hd :: tl)
          exact List.pairwise_cons.2 ⟨hhd, htl⟩
      case _ hc =>
        show List.Pairwise RowsOk (hd :: (upsertPairing tl c o).2)
        rw [List.pairwise_cons]
        constructor
        · intro b hbmem
          rcases mem_upsertPairing hbmem with h | h
          · exact hhd b h
          · subst h
            have hAh := hA hd (List.mem_cons_self hd tl)
            have hBh := hB hd (List.mem_cons_self hd tl)
            refine ⟨?_, ?_, hBh, ?_⟩
            · intro h
              exact hc (by simp [h])
            · intro ⟨_, heq⟩
              exact hAh (Or.inr heq)
            · intro h
              exact hAh (Or.inl (Option.some.inj h).symm)
        · exact ih htl (fun r hr => hA r (List.mem_cons_of_mem _ hr))
            (fun r hr => hB r (List.mem_cons_of_mem _ hr))

/-- `begin_conversation_with_locking` preserves the invariant. -/
theorem beginConversation_inv {s : PairingState} {c o : Int}
    (hs : StateInv s) : StateInv (beginConversation s c o).2 := by
  unfold beginConversation
  split
  · exact hs
  case _ h1 =>
    split
    · exact hs
    · split <;> exact hs
    case _ o2 hg =>
      have hA : ∀ r ∈ s, ¬(r.client = o ∨ r.operator = some o) :=
        getConversing_fst_none hg
      have hB : ∀ r ∈ s, r.operator ≠ some c := by
        intro r hmem hop
        apply h1
        simp only [beq_iff_eq]
        exact (getConversing_snd_eq_some_self hs).2 ⟨r, hmem, hop⟩
      split
      · exact upsertPairing_inv hs hA hB
      · exact hs

/-- `end_conversation_or_cancel_request_with_plocking` preserves the
invariant. -/
theorem endOrCancel_inv {s : PairingState} {c : Int}
    (hs : StateInv s) : StateInv (endOrCancel s c).2 := by
  unfold endOrCancel
  split
  · exact hs.sublist (List.filter_sublist s)
  · exact hs

/-- Any state reachable from a given invariant state keeps the invariant. -/
theorem foldl_applyOp_inv : ∀ (ops : List StoreOp) (s : PairingState),
    StateInv s → StateInv (ops.foldl applyOp s) := by
  intro ops
  induction ops with
  | nil => intro s hs; exact hs
  | cons op rest ih =>
      intro s hs
      rcases op with c | ⟨c, o⟩ | c
      · exact ih _ (requestConversation_inv hs)
      · exact ih _ (beginConversation_inv hs)
      · exact ih _ (endOrCancel_inv hs)

theorem runOps_inv (ops : List StoreOp) : StateInv (runOps ops) :=
  foldl_applyOp_inv ops [] List.Pairwise.nil

/-- A list that is pairwise not-both-`p` has at most one `p` element. -/
theorem countP_le_one_of_pairwise {α : Type} {p : α → Bool} :
    ∀ {l : List α}, l.Pairwise (fun a b => ¬(p a = true ∧ p b = true)) →
      l.countP p ≤ 1 := by
  intro l
  induction l with
  | nil => intro _; simp
  | cons a t ih =>
      intro h
      rw [List.pairwise_cons] at h
      obtain ⟨ha, ht⟩ := h
      by_cases hp : p a
      · have hz : t.countP p = 0 :=
          List.countP_eq_zero.2 (fun b hb hpb => ha b hb ⟨hp, hpb⟩)
        simp [List.countP_cons, hp, hz]
      · have hne : List.countP p (a :: t) = List.countP p t := by
          simp [List.countP_cons, hp]
        rw [hne]
        exact ih ht

theorem clients_pairwise_of_inv {s : PairingState} (hs : StateInv s) :
    s.Pairwise (fun a b => a.client ≠ b.client) :=
  hs.imp (fun h => h.1)

/-- C1: Starting from an empty pairings relation, after any sequence of
request, begin, and end-or-cancel operations (observed between
transactions), every user id appears as `operator_id` in at most one
pairing record, and no user id is the `operator_id` of one record while
being the `client_id` of a different record. -/
theorem claim_C1_reachable_invariant (ops : List StoreOp) :
    (∀ u : Int, (runOps ops).countP (fun r => r.operator == some u) ≤ 1) ∧
    (∀ r1 ∈ runOps ops, ∀ r2 ∈ runOps ops, ∀ u : Int,
        r1.operator = some u → r2.client = u → r1 = r2) := by
  have hinv := runOps_inv ops
  constructor
  · intro u
    apply countP_le_one_of_pairwise
    apply hinv.imp
    intro a b hab
    intro ⟨hpa, hpb⟩
    rw [beq_iff_eq] at hpa hpb
    exact hab.2.1 ⟨by rw [hpa]; rfl, by rw [hpa, hpb]⟩
  · intro r1 h1 r2 h2 u hop hcl
    by_contra hne
    have hok := hinv.forall rowsOk_symmetric h1 h2 hne
    exact hok.2.2.1 (by rw [hop, hcl])

theorem getConversing_eq_some {s : PairingState} {u x : Int} {op : Option Int}
    (h : getConversing s u = (some x, op)) :
    ∃ r ∈ s, s.find? (rowMatches u) = some r ∧ r.client = x ∧ r.operator = op := by
  unfold getConversing at h
  rcases hf : s.find? (rowMatches u) with _ | r
  · rw [hf] at h
    simp at h
  · rw [hf] at h
    rw [Prod.mk.injEq] at h
    obtain ⟨h1, h2⟩ := h
    exact ⟨r, List.mem_of_find?_eq_some hf, rfl, Option.some.inj h1, h2⟩

/-- Row count of the conditional upsert is zero exactly when the client
already has a record with a non-null operator. -/
theorem upsertPairing_fst_eq_zero {c o : Int} : ∀ {s : PairingState},
    s.Pairwise (fun a b => a.client ≠ b.client) →
    ((upsertPairing s c o).1 = 0 ↔ ∃ r ∈ s, r.client = c ∧ r.operator ≠ none) := by
  intro s
  induction s with
  | nil => intro _; simp [upsertPairing]
  | cons hd tl ih =>
      intro h
      rw [List.pairwise_cons] at h
      obtain ⟨hhd, htl⟩ := h
      simp only [upsertPairing]
      split
      case _ hc =>
        have hcc : hd.client = c := by simpa using hc
        split
        case _ hop =>
          simp only
          constructor
          · intro h0
            exact absurd h0 one_ne_zero
          · rintro ⟨r, hr, hrc, hrop⟩
            rcases List.mem_cons.1 hr with heq | hr'
            · subst heq
              exact (hrop hop).elim
            · exact absurd (hcc.trans hrc.symm) (hhd r hr')
        case _ v hop =>
          simp only
          constructor
          · intro _
            exact ⟨hd, List.mem_cons_self hd tl, hcc, by rw [hop]; simp⟩
          · intro _
            trivial
      case _ hc =>
        have hcne : hd.client ≠ c := by simpa using hc
        simp only
        rw [ih htl]
        constructor
        · rintro ⟨r, hr, hrc, hrop⟩
          exact ⟨r, List.mem_cons_of_mem _ hr, hrc, hrop⟩
        · rintro ⟨r, hr, hrc, hrop⟩
          rcases List.mem_cons.1 hr with heq | hr'
          · subst heq
            exact absurd hrc hcne
          · exact ⟨r, hr', hrc, hrop⟩

/-- Membership in the upsert result, when the write succeeded: old rows
of other clients plus the written row. -/
theorem upsertPairing_mem_iff {c o : Int} : ∀ {s : PairingState},
    s.Pairwise (fun a b => a.client ≠ b.client) →
    (upsertPairing s c o).1 > 0 →
    ∀ r : PairingRow, r ∈ (upsertPairing s c o).2 ↔
      ((r ∈ s ∧ r.client ≠ c) ∨ r = ⟨c, some o⟩) := by
  intro s
  induction s with
  | nil =>
      intro _ _ r
      simp [upsertPairing]
  | cons hd tl ih =>
      intro h hpos r
      rw [List.pairwise_cons] at h
      obtain ⟨hhd, htl⟩ := h
      by_cases hcb : hd.client = c
      · rcases hop : hd.operator with _ | v
        · have hstep : upsertPairing (hd :: tl) c o = (1, ⟨c, some o⟩ :: tl) := by
            simp [upsertPairing, hcb, hop]
          rw [hstep]
          simp only [List.mem_cons]
          constructor
          · rintro (heq | hr')
            · exact Or.inr heq
            · refine Or.inl ⟨Or.inr hr', ?_⟩
              intro hrc
              exact hhd r hr' (hcb.trans hrc.symm)
          · rintro (⟨hmem, hne⟩ | heq)
            · rcases hmem with heq | hr'
              · exact absurd (by rw [heq]; exact hcb) hne
              · exact Or.inr hr'
            · exact Or.inl heq
        · have hstep : upsertPairing (hd :: tl) c o = (0, hd :: tl) := by
            simp [upsertPairing, hcb, hop]
          rw [hstep] at hpos
          simp at hpos
      · have hb : (hd.client == c) = false := by
          simp [hcb]
        have hstep : upsertPairing (hd :: tl) c o
            = ((upsertPairing tl c o).1, hd :: (upsertPairing tl c o).2) := by
          simp [upsertPairing, hb]
        rw [hstep] at hpos
        have hpos' : (upsertPairing tl c o).1 > 0 := hpos
        rw [hstep]
        show r ∈ hd :: (upsertPairing tl c o).2 ↔ _
        simp only [List.mem_cons]
        rw [ih htl hpos' r]
        constructor
        · rintro (heq | (⟨hr', hne⟩ | heq))
          · exact Or.inl ⟨Or.inl heq, by rw [heq]; exact hcb⟩
          · exact Or.inl ⟨Or.inr hr', hne⟩
          · exact Or.inr heq
        · rintro (⟨hmem, hne⟩ | heq)
          · rcases hmem with heq | hr'
            · exact Or.inl heq
            · exact Or.inr (Or.inl ⟨hr', hne⟩)
          · exact Or.inr (Or.inr heq)

/-- The outcome of `request(client_id)` as the specification words it:
`0` created when no record touches the client, `1` already-requesting
when the record touching the client has a null operator, else `2`
already-paired. -/
def claimRequestCode (s : PairingState) (c : Int) : Nat :=
  if s.any (rowMatches c) = false then 0
  else if s.any (fun r => rowMatches c r && r.operator.isNone) then 1
  else 2

/-- C7: `request(client_id)` reports created (0) when no pairing record
touches `client_id` and then inserts `(client_id, null)`; reports
already-requesting (1) when the record touching `client_id` has a null
operator; otherwise reports already-paired (2); and leaves the relation
unchanged in the two non-created cases. -/
theorem claim_C7_request_outcomes (s : PairingState) (c : Int) (hs : StateInv s) :
    (requestConversation s c).1 = claimRequestCode s c ∧
    (claimRequestCode s c = 0 → (requestConversation s c).2 = s ++ [⟨c, none⟩]) ∧
    (claimRequestCode s c ≠ 0 → (requestConversation s c).2 = s) := by
  unfold requestConversation
  split
  case _ o1 heq =>
    have hno := getConversing_fst_none heq
    have hany : s.any (rowMatches c) = false := by
      rw [List.any_eq_false]
      intro r hr
      rw [rowMatches_iff]
      exact hno r hr
    simp [claimRequestCode, hany]
  case _ x heq =>
    obtain ⟨r, hmem, hfind, hclient, hop⟩ := getConversing_eq_some heq
    have hmatch : rowMatches c r := List.find?_some hfind
    have hany : s.any (rowMatches c) = true := by
      rw [List.any_eq_true]
      exact ⟨r, hmem, hmatch⟩
    have hany2 : s.any (fun r' => rowMatches c r' && r'.operator.isNone) = true := by
      rw [List.any_eq_true]
      exact ⟨r, hmem, by rw [Bool.and_eq_true, hop]; exact ⟨hmatch, rfl⟩⟩
    simp [claimRequestCode, hany, hany2]
  case _ x v heq =>
    obtain ⟨r, hmem, hfind, hclient, hop⟩ := getConversing_eq_some heq
    have hmatch : rowMatches c r := List.find?_some hfind
    have hany : s.any (rowMatches c) = true := by
      rw [List.any_eq_true]
      exact ⟨r, hmem, hmatch⟩
    have hany2 : s.any (fun r' => rowMatches c r' && r'.operator.isNone) = false := by
      rw [List.any_eq_false]
      intro r' hr' hcontra
      rw [Bool.and_eq_true] at hcontra
      obtain ⟨hm', hn'⟩ := hcontra
      have heqr : r' = r := touch_unique hs hr' hmem hm' hmatch
      subst heqr
      rw [hop] at hn'
      simp at hn'
    simp [claimRequestCode, hany, hany2]

/-- Witness for C7 at concrete states: empty store, pending request,
active conversation. -/
theorem claim_C7_request_outcomes_witness :
    (requestConversation [] 5).1 = claimRequestCode [] 5 ∧
    (requestConversation [⟨5, none⟩] 5).1 = claimRequestCode [⟨5, none⟩] 5 ∧
    (requestConversation [⟨5, some 9⟩] 5).1 = claimRequestCode [⟨5, some 9⟩] 5 :=
  ⟨(claim_C7_request_outcomes [] 5 (by decide)).1,
   (claim_C7_request_outcomes [⟨5, none⟩] 5 (by decide)).1,
   (claim_C7_request_outcomes [⟨5, some 9⟩] 5 (by decide)).1⟩

/-- The outcome of `begin(client_id, operator_id)` as the specification
words it, with the checks in the specified order: `1` when the client
operates somewhere; else `2`/`3`/`4` according to the record touching the
operator; else `5` when the conditional upsert affects no row (client
already paired with a non-null operator); else `0`. -/
def claimBeginCode (s : PairingState) (c o : Int) : Nat :=
  if s.any (fun r => r.operator == some c) then 1
  else if s.any (rowMatches o) then
    (if s.any (fun r => rowMatches o r && r.operator.isNone) then 2
     else if s.any (fun r => rowMatches o r && r.client == o) then 3
     else 4)
  else if s.any (fun r => r.client == c && !r.operator.isNone) then 5
  else 0

/-- C2: `begin(client_id, operator_id)` checks in the specified order and
returns exactly the specified outcome; on every non-OK outcome the
relation is unchanged; on OK the resulting relation consists of the old
rows of other clients plus `(client_id, operator_id)`. -/
theorem claim_C2_begin_outcomes (s : PairingState) (c o : Int) (hs : StateInv s) :
    (beginConversation s c o).1 = claimBeginCode s c o ∧
    ((beginConversation s c o).1 ≠ 0 → (beginConversation s c o).2 = s) ∧
    ((beginConversation s c o).1 = 0 →
      ∀ r : PairingRow, r ∈ (beginConversation s c o).2 ↔
        ((r ∈ s ∧ r.client ≠ c) ∨ r = ⟨c, some o⟩)) := by
  unfold beginConversation
  split
  case _ h1 =>
    have hA : s.any (fun r => r.operator == some c) = true := by
      rw [List.any_eq_true]
      obtain ⟨r, hm, hop⟩ :=
        (getConversing_snd_eq_some_self hs).1 (by simpa using h1)
      exact ⟨r, hm, by rw [hop]; exact beq_self_eq_true _⟩
    simp [claimBeginCode, hA]
  case _ h1 =>
    have hnotA : s.any (fun r => r.operator == some c) = false := by
      rw [List.any_eq_false]
      intro r hr hcontra
      rw [beq_iff_eq] at hcontra
      apply h1
      simp only [beq_iff_eq]
      exact (getConversing_snd_eq_some_self hs).2 ⟨r, hr, hcontra⟩
    split
    case _ x heq =>
      obtain ⟨r, hmem, hfind, hclient, hop⟩ := getConversing_eq_some heq
      have hmatch : rowMatches o r := List.find?_some hfind
      have hTouch : s.any (rowMatches o) = true := by
        rw [List.any_eq_true]
        exact ⟨r, hmem, hmatch⟩
      have h2 : s.any (fun r' => rowMatches o r' && r'.operator.isNone) = true := by
        rw [List.any_eq_true]
        exact ⟨r, hmem, by rw [Bool.and_eq_true, hop]; exact ⟨hmatch, rfl⟩⟩
      simp [claimBeginCode, hnotA, hTouch, h2]
    case _ x v heq =>
      obtain ⟨r, hmem, hfind, hclient, hop⟩ := getConversing_eq_some heq
      have hmatch : rowMatches o r := List.find?_some hfind
      have hTouch : s.any (rowMatches o) = true := by
        rw [List.any_eq_true]
        exact ⟨r, hmem, hmatch⟩
      have h2f : s.any (fun r' => rowMatches o r' && r'.operator.isNone) = false := by
        rw [List.any_eq_false]
        intro r' hr' hcontra
        rw [Bool.and_eq_true] at hcontra
        obtain ⟨hm', hn'⟩ := hcontra
        have heqr : r' = r := touch_unique hs hr' hmem hm' hmatch
        subst heqr
        rw [hop] at hn'
        simp at hn'
      split
      case _ hxo =>
        have h3 : s.any (fun r' => rowMatches o r' && r'.client == o) = true := by
          rw [List.any_eq_true]
          refine ⟨r, hmem, ?_⟩
          rw [Bool.and_eq_true, hclient]
          exact ⟨hmatch, hxo⟩
        simp [claimBeginCode, hnotA, hTouch, h2f, h3]
      case _ hxo =>
        have h3f : s.any (fun r' => rowMatches o r' && r'.client == o) = false := by
          rw [List.any_eq_false]
          intro r' hr' hcontra
          rw [Bool.and_eq_true] at hcontra
          obtain ⟨hm', hc'⟩ := hcontra
          have heqr : r' = r := touch_unique hs hr' hmem hm' hmatch
          subst heqr
          rw [hclient] at hc'
          exact hxo hc'
        simp [claimBeginCode, hnotA, hTouch, h2f, h3f]
    case _ o2 heq =>
      have hno := getConversing_fst_none heq
      have hTouchF : s.any (rowMatches o) = false := by
        rw [List.any_eq_false]
        intro r hr
        rw [rowMatches_iff]
        exact hno r hr
      have hpw := clients_pairwise_of_inv hs
      split
      case _ hpos =>
        have hnex : ¬∃ x ∈ s, x.client = c ∧ x.operator.isSome = true := by
          rintro ⟨r', hr', hc', hn'⟩
          have hz : (upsertPairing s c o).1 = 0 := by
            rw [upsertPairing_fst_eq_zero hpw]
            exact ⟨r', hr', hc', Option.ne_none_iff_isSome.2 hn'⟩
          omega
        refine ⟨by simp [claimBeginCode, hnotA, hTouchF, hnex], by simp, ?_⟩
        intro _ r
        exact upsertPairing_mem_iff hpw hpos r
      case _ hpos =>
        have hz : (upsertPairing s c o).1 = 0 := by omega
        obtain ⟨r, hr, hc', hn'⟩ := (upsertPairing_fst_eq_zero hpw).1 hz
        have hex : ∃ x ∈ s, x.client = c ∧ x.operator.isSome = true :=
          ⟨r, hr, hc', Option.ne_none_iff_isSome.1 hn'⟩
        simp [claimBeginCode, hnotA, hTouchF, hex]

/-- Witness for C2 at concrete states covering every outcome code. -/
theorem claim_C2_begin_outcomes_witness :
    (beginConversation [⟨5, none⟩] 5 9).1 = claimBeginCode [⟨5, none⟩] 5 9 ∧
    (beginConversation [⟨3, some 5⟩] 5 9).1 = claimBeginCode [⟨3, some 5⟩] 5 9 ∧
    (beginConversation [⟨9, none⟩] 5 9).1 = claimBeginCode [⟨9, none⟩] 5 9 ∧
    (beginConversation [⟨9, some 4⟩] 5 9).1 = claimBeginCode [⟨9, some 4⟩] 5 9 ∧
    (beginConversation [⟨3, some 9⟩] 5 9).1 = claimBeginCode [⟨3, some 9⟩] 5 9 ∧
    (beginConversation [⟨5, some 7⟩] 5 9).1 = claimBeginCode [⟨5, some 7⟩] 5 9 :=
  ⟨(claim_C2_begin_outcomes [⟨5, none⟩] 5 9 (by decide)).1,
   (claim_C2_begin_outcomes [⟨3, some 5⟩] 5 9 (by decide)).1,
   (claim_C2_begin_outcomes [⟨9, none⟩] 5 9 (by decide)).1,
   (claim_C2_begin_outcomes [⟨9, some 4⟩] 5 9 (by decide)).1,
   (claim_C2_begin_outcomes [⟨3, some 9⟩] 5 9 (by decide)).1,
   (claim_C2_begin_outcomes [⟨5, some 7⟩] 5 9 (by decide)).1⟩

/-- With pairwise-distinct client keys, `find?` on the client key locates
any member row with that key. -/
theorem find?_client_eq {s : PairingState} {c : Int} {r : PairingRow}
    (hpw : s.Pairwise (fun a b => a.client ≠ b.client)) (hmem : r ∈ s)
    (hc : r.client = c) :
    s.find? (fun r' => r'.client == c) = some r := by
  have hsome : (s.find? (fun r' => r'.client == c)).isSome := by
    rw [List.find?_isSome]
    exact ⟨r, hmem, by rw [hc]; exact beq_self_eq_true _⟩
  obtain ⟨r', hr'⟩ := Option.isSome_iff_exists.1 hsome
  have hr'mem := List.mem_of_find?_eq_some hr'
  have hr'c : r'.client = c := by simpa using List.find?_some hr'
  by_cases hne : r' = r
  · rw [hr', hne]
  · exact absurd (hr'c.trans hc.symm)
      (hpw.forall (fun _ _ h => h.symm) hr'mem hmem hne)

/-- C8 counterexample: for the record `(7, 0)` — operator id `0`,
non-null — the delete reports `-1` (the cancelled-request code), not the
attached operator id `0` as the claim states. -/
theorem claim_C8_counterexample :
    (endOrCancel [⟨7, some 0⟩] 7).1 = some (-1) ∧
    (endOrCancel [⟨7, some 0⟩] 7).1 ≠ some 0 := by decide

/-- C8 (amended): `end_or_cancel(client_id)` deletes exactly the record
keyed by `client_id` (no such record remains, other clients' records are
unchanged) and the result reflects the pre-deletion state except that a
zero operator id is collapsed by the truthiness fallback: `some o` when a
record `(client_id, o)` with non-null, nonzero `o` existed, `some (-1)`
when the record's operator was null or zero, `none` when no record was
keyed by `client_id`. -/
theorem claim_C8_end_or_cancel_outcomes (s : PairingState) (c : Int)
    (hpw : s.Pairwise (fun a b => a.client ≠ b.client)) :
    (∀ r ∈ s, ∀ v : Int, r.client = c → r.operator = some v → v ≠ 0 →
        (endOrCancel s c).1 = some v) ∧
    (∀ r ∈ s, r.client = c → (r.operator = none ∨ r.operator = some 0) →
        (endOrCancel s c).1 = some (-1)) ∧
    ((∀ r ∈ s, r.client ≠ c) → (endOrCancel s c).1 = none) ∧
    (∀ r : PairingRow, r ∈ (endOrCancel s c).2 ↔ (r ∈ s ∧ r.client ≠ c)) := by
  refine ⟨?_, ?_, ?_, ?_⟩
  · intro r hmem v hc hop hv
    unfold endOrCancel
    rw [find?_client_eq hpw hmem hc]
    simp [hop, hv]
  · intro r hmem hc hops
    unfold endOrCancel
    rw [find?_client_eq hpw hmem hc]
    rcases hops with hop | hop <;> simp [hop]
  · intro hnone
    unfold endOrCancel
    have hf : s.find? (fun r' => r'.client == c) = none := by
      rw [List.find?_eq_none]
      intro r hr hb
      exact hnone r hr (by simpa using hb)
    rw [hf]
  · intro r
    unfold endOrCancel
    rcases hf : s.find? (fun r' => r'.client == c) with _ | r₀
    · have hall := List.find?_eq_none.1 hf
      rw [hf]
      show r ∈ s ↔ r ∈ s ∧ r.client ≠ c
      constructor
      · intro hr
        exact ⟨hr, fun hc => hall r hr (by rw [hc]; exact beq_self_eq_true _)⟩
      · exact fun h => h.1
    · rw [hf]
      show r ∈ s.filter (fun r' => r'.client != c) ↔ r ∈ s ∧ r.client ≠ c
      rw [List.mem_filter]
      constructor
      · rintro ⟨hr, hb⟩
        exact ⟨hr, by simpa using hb⟩
      · rintro ⟨hr, hb⟩
        exact ⟨hr, by simpa using hb⟩

/-- Witness for C8 (amended) at concrete states: active conversation,
pending request, absent record. -/
theorem claim_C8_end_or_cancel_outcomes_witness :
    (endOrCancel [⟨5, some 9⟩] 5).1 = some 9 ∧
    (endOrCancel [⟨5, none⟩] 5).1 = some (-1) ∧
    (endOrCancel ([] : PairingState) 5).1 = none :=
  ⟨(claim_C8_end_or_cancel_outcomes [⟨5, some 9⟩] 5 (by decide)).1
      ⟨5, some 9⟩ (by decide) 9 rfl rfl (by decide),
   (claim_C8_end_or_cancel_outcomes [⟨5, none⟩] 5 (by decide)).2.1
      ⟨5, none⟩ (by decide) rfl (Or.inl rfl),
   (claim_C8_end_or_cancel_outcomes [] 5 (by decide)).2.2.1 (by simp)⟩

/-- C10: when the record keyed by `client_id` carries operator id `0`,
the operation yields `-1` — the cancelled-pending-request code — rather
than the attached operator id `0`, because of the `fetchone()[0] or -1`
truthiness fallback. -/
theorem claim_C10_operator_zero_collapses (s : PairingState) (c : Int)
    (hpw : s.Pairwise (fun a b => a.client ≠ b.client))
    (hmem : (⟨c, some 0⟩ : PairingRow) ∈ s) :
    (endOrCancel s c).1 = some (-1) ∧ (endOrCancel s c).1 ≠ some 0 := by
  have hres : (endOrCancel s c).1 = some (-1) := by
    unfold endOrCancel
    rw [find?_client_eq hpw hmem rfl]
    rfl
  refine ⟨hres, by rw [hres]; decide⟩

/-- Witness for C10 at the concrete state `[(3, 0)]`. -/
theorem claim_C10_operator_zero_collapses_witness :
    (endOrCancel [⟨3, some 0⟩] 3).1 = some (-1) ∧
    (endOrCancel [⟨3, some 0⟩] 3).1 ≠ some 0 :=
  claim_C10_operator_zero_collapses [⟨3, some 0⟩] 3 (by decide) (by decide)

/-- After a successful conditional upsert, the written row is the first
row touching the client, provided the fetched row touching the client (if
any) did not carry the client as operator. -/
theorem upsertPairing_find {c o : Int} : ∀ {s : PairingState},
    (∀ r', s.find? (rowMatches c) = some r' → r'.operator ≠ some c) →
    (upsertPairing s c o).1 > 0 →
    (upsertPairing s c o).2.find? (rowMatches c) = some ⟨c, some o⟩ := by
  intro s
  induction s with
  | nil =>
      intro _ _
      simp [upsertPairing, List.find?_cons_of_pos, rowMatches]
  | cons hd tl ih =>
      intro hfirst hpos
      by_cases hcb : hd.client = c
      · rcases hop : hd.operator with _ | v
        · have hstep : upsertPairing (hd :: tl) c o = (1, ⟨c, some o⟩ :: tl) := by
            simp [upsertPairing, hcb, hop]
          rw [hstep]
          exact List.find?_cons_of_pos _ (by simp [rowMatches])
        · have hstep : upsertPairing (hd :: tl) c o = (0, hd :: tl) := by
            simp [upsertPairing, hcb, hop]
          rw [hstep] at hpos
          simp at hpos
      · have hb : (hd.client == c) = false := by
          simp [hcb]
        have hstep : upsertPairing (hd :: tl) c o
            = ((upsertPairing tl c o).1, hd :: (upsertPairing tl c o).2) := by
          simp [upsertPairing, hb]
        rw [hstep] at hpos
        have hpos' : (upsertPairing tl c o).1 > 0 := hpos
        rw [hstep]
        have hhdm : rowMatches c hd = false := by
          rcases hmb : rowMatches c hd with _ | _
          · rfl
          · have hfhd : (hd :: tl).find? (rowMatches c) = some hd :=
              List.find?_cons_of_pos _ hmb
            have hne := hfirst hd hfhd
            rcases rowMatches_iff.1 hmb with h | h
            · exact absurd h hcb
            · exact absurd h hne
        show (hd :: (upsertPairing tl c o).2).find? (rowMatches c) = some ⟨c, some o⟩
        rw [List.find?_cons_of_neg _ (by rw [hhdm]; exact Bool.false_ne_true)]
        apply ih ?_ hpos'
        intro r' hr'
        apply hfirst
        rw [List.find?_cons_of_neg _ (by rw [hhdm]; exact Bool.false_ne_true)]
        exact hr'

/-- C9 counterexample: from the reachable state `[(9, 5)]` (client 9 in
conversation with operator 5), `end_or_cancel(5)` deletes nothing and a
subsequent `snapshot(5)` returns `(9, 5)`, not `(null, null)` as the
claim states. -/
theorem claim_C9_counterexample :
    getConversing (endOrCancel [⟨9, some 5⟩] 5).2 5 = (some 9, some 5) ∧
    getConversing (endOrCancel [⟨9, some 5⟩] 5).2 5 ≠ (none, none) := by decide

/-- C9 (amended): `request(c)` reporting created followed by `snapshot(c)`
returns `(c, null)`; `begin(c, o)` returning OK followed by `snapshot(c)`
returns `(c, o)`; and after `end_or_cancel(c)`, `snapshot(c)` returns
`(null, null)` provided `c` is not the operator of a record keyed by a
different client (the delete only removes the record keyed by `c`). -/
theorem claim_C9_round_trips (s : PairingState) (c o : Int) :
    ((requestConversation s c).1 = 0 →
      getConversing (requestConversation s c).2 c = (some c, none)) ∧
    ((beginConversation s c o).1 = 0 →
      getConversing (beginConversation s c o).2 c = (some c, some o)) ∧
    ((∀ r ∈ s, r.operator = some c → r.client = c) →
      getConversing (endOrCancel s c).2 c = (none, none)) := by
  refine ⟨?_, ?_, ?_⟩
  · unfold requestConversation
    split
    case _ o1 heq =>
      intro _
      have hno := getConversing_fst_none heq
      have hfs : s.find? (rowMatches c) = none :=
        List.find?_eq_none.2 (fun r hr hb => hno r hr (rowMatches_iff.1 hb))
      show getConversing (s ++ [⟨c, none⟩]) c = (some c, none)
      unfold getConversing
      rw [List.find?_append, hfs]
      rw [List.find?_cons_of_pos _ (by simp [rowMatches])]
      rfl
    case _ x heq =>
      intro h
      exact absurd h one_ne_zero
    case _ x v heq =>
      intro h
      simp at h
  · unfold beginConversation
    split
    case _ h1 =>
      intro h
      exact absurd h one_ne_zero
    case _ h1 =>
      split
      case _ x heq =>
        intro h
        simp at h
      case _ x v heq =>
        split
        · intro h
          simp at h
        · intro h
          simp at h
      case _ o2 heq =>
        split
        case _ hpos =>
          intro _
          have hfirst : ∀ r', s.find? (rowMatches c) = some r' →
              r'.operator ≠ some c := by
            intro r' hr' hop
            apply h1
            unfold getConversing
            rw [hr']
            simp [hop]
          have := upsertPairing_find hfirst hpos
          show getConversing (upsertPairing s c o).2 c = (some c, some o)
          unfold getConversing
          rw [this]
        case _ hpos =>
          intro h
          simp at h
  · intro hc
    unfold endOrCancel
    rcases hf : s.find? (fun r' => r'.client == c) with _ | r₀
    · rw [hf]
      show getConversing s c = (none, none)
      have hall := List.find?_eq_none.1 hf
      unfold getConversing
      rw [List.find?_eq_none.2 ?_]
      intro r hr hb
      rcases rowMatches_iff.1 hb with h | h
      · exact hall r hr (by rw [h]; exact beq_self_eq_true _)
      · exact hall r hr (by rw [hc r hr h]; exact beq_self_eq_true _)
    · rw [hf]
      show getConversing (s.filter (fun r' => r'.client != c)) c = (none, none)
      unfold getConversing
      rw [List.find?_eq_none.2 ?_]
      intro r hr hb
      rw [List.mem_filter] at hr
      obtain ⟨hrs, hrne⟩ := hr
      have hrne' : r.client ≠ c := by simpa using hrne
      rcases rowMatches_iff.1 hb with h | h
      · exact hrne' h
      · exact hrne' (hc r hrs h)

/-- Witness for C9 (amended) at concrete states for all three legs. -/
theorem claim_C9_round_trips_witness :
    getConversing (requestConversation [] 5).2 5 = (some 5, none) ∧
    getConversing (beginConversation [⟨5, none⟩] 5 9).2 5 = (some 5, some 9) ∧
    getConversing (endOrCancel [⟨5, some 9⟩] 5).2 5 = (none, none) :=
  ⟨(claim_C9_round_trips [] 5 9).1 (by decide),
   (claim_C9_round_trips [⟨5, none⟩] 5 9).2.1 (by decide),
   (claim_C9_round_trips [⟨5, some 9⟩] 5 9).2.2 (by decide)⟩

/-! ## Invitation ledger (`helpline_telegraph/core/invitations.py`)

The `users` table is a list of rows with `chat_id` and `is_operator`;
the `sent_invitations` table a list of rows `(operator_chat_id,
client_chat_id, invitation_message_id)` with `(operator, client)` unique.
The transport collaborator `send_invitation_callback` is a function
returning the sent message id, or `none` on transport-level failure; a
genuine storage failure of the `INSERT` is injected through a fault
oracle, since exceptions of the store are environment events. -/

/-- One row of the `users` table (the columns the invitation query
reads). -/
structure User where
  chatId : Int
  isOperator : Bool
deriving DecidableEq, Repr

/-- One row of the `sent_invitations` table. -/
structure Invitation where
  operator : Int
  client : Int
  messageId : Int
deriving DecidableEq, Repr

/-- The `(operator_chat_id, client_chat_id)` key match. -/
def invMatches (operatorId clientId : Int) (i : Invitation) : Bool :=
  i.operator == operatorId && i.client == clientId

/-- `INSERT INTO sent_invitations ... ON CONFLICT (operator_chat_id,
client_chat_id) DO NOTHING` (invitations.py:37-40): affected row count
and new table. -/
def insertInvitationIgnore (invs : List Invitation) (row : Invitation) :
    Nat × List Invitation :=
  if invs.any (invMatches row.operator row.client) then (0, invs)
  else (1, invs ++ [row])

/-- Result of one `_invite_operator_to_client` call. -/
structure InviteOutcome where
  invs : List Invitation
  deliveredMsg : Option Int
  retracted : Bool
  raised : Bool
deriving DecidableEq, Repr

/-- `InvitationsController._invite_operator_to_client`
(helpline_telegraph/core/invitations.py:22-51): deliver the notice; if
delivered, record it with an upsert-ignore; when the insert is dropped as
a duplicate (`cursor.rowcount == 0`) retract the notice; when the insert
raises (`storageFault`), retract the notice and re-raise. -/
def inviteOperatorToClient (send : Int → Int → Option Int)
    (storageFault : Int → Int → Bool) (invs : List Invitation)
    (operatorId clientId : Int) : InviteOutcome :=
  match send operatorId clientId with
  | none => ⟨invs, none, false, false⟩
  | some msgId =>
      if storageFault operatorId clientId then
        ⟨invs, some msgId, true, true⟩
      else
        match insertInvitationIgnore invs ⟨operatorId, clientId, msgId⟩ with
        | (0, _) => ⟨invs, some msgId, true, false⟩
        | (_, invs') => ⟨invs', some msgId, false, false⟩

/-- The join rows one `users` row contributes to the invitation query of
`invite_to_client` (helpline_telegraph/core/invitations.py:93-106):
`users LEFT OUTER JOIN conversations ON` the user touches the
conversation in either role, `LEFT OUTER JOIN sent_invitations ON` the
user is the invited operator for this client, filtered by
`users.is_operator AND users.chat_id != client AND
conversations.operator_chat_id IS NULL AND
sent_invitations.client_chat_id IS NULL`. -/
def selectRows (u : User) (convs : PairingState) (invs : List Invitation)
    (clientId : Int) : List Int :=
  if u.isOperator && u.chatId != clientId
      && !(invs.any (invMatches u.chatId clientId)) then
    (if (convs.filter (rowMatches u.chatId)).isEmpty then [u.chatId]
     else ((convs.filter (rowMatches u.chatId)).filter
             (fun r => r.operator.isNone)).map (fun _ => u.chatId))
  else []

/-- The operator chat ids fetched by the invitation query, in `users`
order with join multiplicities. -/
def selectedOperators (users : List User) (convs : PairingState)
    (invs : List Invitation) (clientId : Int) : List Int :=
  (users.map (fun u => selectRows u convs invs clientId)).flatten

/-- The `for operator_chat_id, in cursor.fetchall():` loop of
`invite_to_client`: runs `_invite_operator_to_client` on each fetched
operator, stopping if a storage error is re-raised.  Returns the final
invitation table, the operators to whom a notice was delivered, the
operators whose notice was retracted, and whether an error propagated. -/
def inviteLoop (send : Int → Int → Option Int)
    (storageFault : Int → Int → Bool) (clientId : Int) :
    List Int → List Invitation →
    List Invitation × List Int × List Int × Bool
  | [], invs => (invs, [], [], false)
  | opId :: rest, invs =>
      match inviteOperatorToClient send storageFault invs opId clientId with
      | out =>
        (if out.raised then
          (out.invs, (match out.deliveredMsg with
                      | some _ => [opId]
                      | none => []), (if out.retracted then [opId] else []), true)
        else
          ((inviteLoop send storageFault clientId rest out.invs).1,
           (match out.deliveredMsg with
            | some _ => [opId]
            | none => []) ++ (inviteLoop send storageFault clientId rest out.invs).2.1,
           (if out.retracted then [opId] else [])
             ++ (inviteLoop send storageFault clientId rest out.invs).2.2.1,
           (inviteLoop send storageFault clientId rest out.invs).2.2.2))

/-- `InvitationsController.invite_to_client`
(helpline_telegraph/core/invitations.py:53-109): fetch the free,
not-yet-invited operators and deliver/record an invitation to each. -/
def inviteToClient (send : Int → Int → Option Int)
    (storageFault : Int → Int → Bool) (users : List User)
    (convs : PairingState) (invs : List Invitation) (clientId : Int) :
    List Invitation × List Int × List Int × Bool :=
  inviteLoop send storageFault clientId
    (selectedOperators users convs invs clientId) invs

example : selectedOperators [⟨9, true⟩] [] [] 5 = [9] := by decide
example : selectedOperators [⟨9, true⟩] [⟨9, none⟩] [] 5 = [9] := by decide
example : selectedOperators [⟨9, true⟩] [⟨9, some 4⟩] [] 5 = [] := by decide
example : selectedOperators [⟨9, true⟩] [⟨3, some 9⟩] [] 5 = [] := by decide
example : selectedOperators [⟨9, false⟩] [] [] 5 = [] := by decide
example : selectedOperators [⟨5, true⟩] [] [] 5 = [] := by decide
example : selectedOperators [⟨9, true⟩] [] [⟨9, 5, 77⟩] 5 = [] := by decide
theorem eq_of_mem_selectRows {u : User} {convs : PairingState}
    {invs : List Invitation} {clientId uId : Int}
    (h : uId ∈ selectRows u convs invs clientId) : uId = u.chatId := by
  unfold selectRows at h
  split at h
  · split at h
    · rwa [List.mem_singleton] at h
    · rw [List.mem_map] at h
      obtain ⟨_, _, heq⟩ := h
      exact heq.symm
  · exact absurd h (List.not_mem_nil uId)

theorem mem_selectedOperators_elim {users : List User} {convs : PairingState}
    {invs : List Invitation} {clientId uId : Int}
    (h : uId ∈ selectedOperators users convs invs clientId) :
    ∃ u ∈ users, uId ∈ selectRows u convs invs clientId := by
  unfold selectedOperators at h
  rw [List.mem_flatten] at h
  obtain ⟨l, hl, hmem⟩ := h
  rw [List.mem_map] at hl
  obtain ⟨u, hu, rfl⟩ := hl
  exact ⟨u, hu, hmem⟩

theorem mem_selectedOperators_intro {users : List User} {convs : PairingState}
    {invs : List Invitation} {clientId uId : Int} {u : User}
    (hu : u ∈ users) (h : uId ∈ selectRows u convs invs clientId) :
    uId ∈ selectedOperators users convs invs clientId := by
  unfold selectedOperators
  rw [List.mem_flatten]
  exact ⟨selectRows u convs invs clientId, List.mem_map_of_mem _ hu, h⟩

/-- Rows pairwise compatible and all touching one user: at most one. -/
theorem length_le_one_of_all_match {l : List PairingRow} {u : Int}
    (hpw : l.Pairwise RowsOk) (hall : ∀ r ∈ l, rowMatches u r) :
    l.length ≤ 1 := by
  rcases l with _ | ⟨a, _ | ⟨b, t⟩⟩
  · simp
  · simp
  · rw [List.pairwise_cons] at hpw
    exact absurd (hall b (List.mem_cons_of_mem _ (List.mem_cons_self b t)))
      (fun hb => rowsOk_not_both_match (hpw.1 b (List.mem_cons_self b t))
        (hall a (List.mem_cons_self a _)) hb)

theorem nodup_of_length_le_one {l : List Int} (h : l.length ≤ 1) : l.Nodup := by
  rcases l with _ | ⟨a, _ | ⟨b, t⟩⟩
  · exact List.nodup_nil
  · simp
  · simp at h

theorem selectRows_length_le_one {u : User} {convs : PairingState}
    {invs : List Invitation} {clientId : Int} (hconv : StateInv convs) :
    (selectRows u convs invs clientId).length ≤ 1 := by
  unfold selectRows
  split
  · split
    · simp
    · rw [List.length_map]
      calc ((convs.filter (rowMatches u.chatId)).filter
              (fun r => r.operator.isNone)).length
          ≤ (convs.filter (rowMatches u.chatId)).length :=
            List.length_filter_le _ _
        _ ≤ 1 := length_le_one_of_all_match
              (hconv.sublist (List.filter_sublist convs))
              (fun r hr => (List.mem_filter.1 hr).2)
  · simp

/-- The invitation query's per-user membership, under the store
invariant: an id is fetched iff it belongs to an operator other than the
client, every pairing record touching it has a null operator, and it
holds no live invitation for this client. -/
theorem selectedOperators_mem_iff (users : List User) (convs : PairingState)
    (invs : List Invitation) (clientId uId : Int) (hconv : StateInv convs) :
    uId ∈ selectedOperators users convs invs clientId ↔
      ((∃ u ∈ users, u.chatId = uId ∧ u.isOperator = true) ∧
       uId ≠ clientId ∧
       (∀ r ∈ convs, (r.client = uId ∨ r.operator = some uId) →
          r.operator = none) ∧
       ¬∃ i ∈ invs, i.operator = uId ∧ i.client = clientId) := by
  constructor
  · intro h
    obtain ⟨u, hu, hsel⟩ := mem_selectedOperators_elim h
    have huid : uId = u.chatId := eq_of_mem_selectRows hsel
    subst huid
    unfold selectRows at hsel
    split at hsel
    case _ hguard =>
      rw [Bool.and_eq_true, Bool.and_eq_true] at hguard
      obtain ⟨⟨hop, hne⟩, hinv⟩ := hguard
      refine ⟨⟨u, hu, rfl, hop⟩, by simpa using hne, ?_, ?_⟩
      · split at hsel
        case _ hemp =>
          intro r hr htouch
          have : r ∈ convs.filter (rowMatches u.chatId) :=
            List.mem_filter.2 ⟨hr, rowMatches_iff.2 htouch⟩
          rw [List.isEmpty_iff] at hemp
          rw [hemp] at this
          exact absurd this (List.not_mem_nil r)
        case _ hemp =>
          intro r hr htouch
          rw [List.mem_map] at hsel
          obtain ⟨r₀, hr₀, _⟩ := hsel
          rw [List.mem_filter, List.mem_filter] at hr₀
          obtain ⟨⟨hr₀c, hr₀m⟩, hr₀n⟩ := hr₀
          have : r = r₀ :=
            touch_unique hconv hr hr₀c (rowMatches_iff.2 htouch) hr₀m
          rw [this]
          exact Option.isNone_iff_eq_none.1 hr₀n
      · intro ⟨i, hi, hio, hic⟩
        rw [Bool.not_eq_true', List.any_eq_false] at hinv
        exact hinv i hi (by rw [invMatches, hio, hic]; simp)
    case _ =>
      exact absurd hsel (List.not_mem_nil _)
  · rintro ⟨⟨u, hu, hchat, hop⟩, hne, hfree, hninv⟩
    subst hchat
    apply mem_selectedOperators_intro hu
    unfold selectRows
    have hguard : (u.isOperator && u.chatId != clientId
        && !(invs.any (invMatches u.chatId clientId))) = true := by
      rw [Bool.and_eq_true, Bool.and_eq_true]
      refine ⟨⟨hop, by simpa using hne⟩, ?_⟩
      rw [Bool.not_eq_true', List.any_eq_false]
      intro i hi hb
      rw [invMatches, Bool.and_eq_true, beq_iff_eq, beq_iff_eq] at hb
      exact hninv ⟨i, hi, hb.1, hb.2⟩
    rw [if_pos hguard]
    rcases htl : convs.filter (rowMatches u.chatId) with _ | ⟨r₀, rest⟩
    · simp
    · rw [if_neg (by simp)]
      have hr₀ : r₀ ∈ convs.filter (rowMatches u.chatId) := by
        rw [htl]
        exact List.mem_cons_self r₀ rest
      rw [List.mem_filter] at hr₀
      have hnone : r₀.operator = none :=
        hfree r₀ hr₀.1 (rowMatches_iff.1 hr₀.2)
      rw [List.mem_map]
      refine ⟨r₀, ?_, rfl⟩
      rw [List.mem_filter]
      exact ⟨List.mem_cons_self r₀ rest, by rw [hnone]; rfl⟩

/-- The fetched operator list has no duplicates when user chat ids are
unique and the pairing store satisfies its invariant. -/
theorem selectedOperators_nodup : ∀ (users : List User)
    (convs : PairingState) (invs : List Invitation) (clientId : Int),
    (users.map User.chatId).Nodup → StateInv convs →
    (selectedOperators users convs invs clientId).Nodup := by
  intro users
  induction users with
  | nil =>
      intro convs invs clientId _ _
      exact List.nodup_nil
  | cons u us ih =>
      intro convs invs clientId hnd hconv
      rw [List.map_cons, List.nodup_cons] at hnd
      obtain ⟨hnotin, hnd'⟩ := hnd
      show ((selectRows u convs invs clientId)
            ++ selectedOperators us convs invs clientId).Nodup
      rw [List.nodup_append]
      refine ⟨nodup_of_length_le_one (selectRows_length_le_one hconv),
        ih convs invs clientId hnd' hconv, ?_⟩
      intro x hx hx'
      have hxu : x = u.chatId := eq_of_mem_selectRows hx
      obtain ⟨u', hu', hsel'⟩ := mem_selectedOperators_elim hx'
      have hxu' : x = u'.chatId := eq_of_mem_selectRows hsel'
      apply hnotin
      rw [List.mem_map]
      exact ⟨u', hu', by rw [← hxu', hxu]⟩

/-- The invitation fan-out loop without storage faults: no error is
raised, no notice is retracted, a notice is delivered to exactly the
fetched operators the transport accepts, and the final ledger is the old
rows plus one row per delivered notice. -/
theorem inviteLoop_no_fault (send : Int → Int → Option Int) (clientId : Int) :
    ∀ (ops : List Int) (invs : List Invitation),
    ops.Nodup →
    (∀ opId ∈ ops, invs.any (invMatches opId clientId) = false) →
    (inviteLoop send (fun _ _ => false) clientId ops invs).2.2.2 = false ∧
    (inviteLoop send (fun _ _ => false) clientId ops invs).2.2.1 = [] ∧
    (∀ opId : Int,
      opId ∈ (inviteLoop send (fun _ _ => false) clientId ops invs).2.1 ↔
        (opId ∈ ops ∧ (send opId clientId).isSome = true)) ∧
    (∀ r : Invitation,
      r ∈ (inviteLoop send (fun _ _ => false) clientId ops invs).1 ↔
        (r ∈ invs ∨ (r.client = clientId ∧ r.operator ∈ ops ∧
          send r.operator clientId = some r.messageId))) := by
  intro ops
  induction ops with
  | nil =>
      intro invs _ _
      refine ⟨rfl, rfl, fun opId => by simp [inviteLoop], fun r => by simp [inviteLoop]⟩
  | cons opId rest ih =>
      intro invs hnd hclean
      rw [List.nodup_cons] at hnd
      obtain ⟨hnotin, hnd'⟩ := hnd
      rcases hsend : send opId clientId with _ | m
      · -- transport failure: skip this operator
        have hout : inviteOperatorToClient send (fun _ _ => false) invs opId clientId
            = ⟨invs, none, false, false⟩ := by
          simp [inviteOperatorToClient, hsend]
        have hloop : inviteLoop send (fun _ _ => false) clientId (opId :: rest) invs
            = ((inviteLoop send (fun _ _ => false) clientId rest invs).1,
               (inviteLoop send (fun _ _ => false) clientId rest invs).2.1,
               (inviteLoop send (fun _ _ => false) clientId rest invs).2.2.1,
               (inviteLoop send (fun _ _ => false) clientId rest invs).2.2.2) := by
          show (match inviteOperatorToClient send (fun _ _ => false) invs opId clientId with
                | out => (if out.raised then _ else _)) = _
          rw [hout]
          rfl
        obtain ⟨ih1, ih2, ih3, ih4⟩ := ih invs hnd'
          (fun o ho => hclean o (List.mem_cons_of_mem _ ho))
        rw [hloop]
        refine ⟨ih1, ih2, ?_, ?_⟩
        · intro x
          rw [ih3 x]
          constructor
          · rintro ⟨hx, hs⟩
            exact ⟨List.mem_cons_of_mem _ hx, hs⟩
          · rintro ⟨hx, hs⟩
            rcases List.mem_cons.1 hx with heq | hx'
            · subst heq
              rw [hsend] at hs
              exact absurd hs (by simp)
            · exact ⟨hx', hs⟩
        · intro r
          rw [ih4 r]
          constructor
          · rintro (hr | ⟨hc, hop, hs⟩)
            · exact Or.inl hr
            · exact Or.inr ⟨hc, List.mem_cons_of_mem _ hop, hs⟩
          · rintro (hr | ⟨hc, hop, hs⟩)
            · exact Or.inl hr
            · rcases List.mem_cons.1 hop with heq | hop'
              · rw [heq, hsend] at hs
                exact absurd hs (by simp)
              · exact Or.inr ⟨hc, hop', hs⟩
      · -- delivered: the fresh row is recorded
        have hdup : invs.any (invMatches opId clientId) = false :=
          hclean opId (List.mem_cons_self _ _)
        have hout : inviteOperatorToClient send (fun _ _ => false) invs opId clientId
            = ⟨invs ++ [⟨opId, clientId, m⟩], some m, false, false⟩ := by
          simp [inviteOperatorToClient, hsend, insertInvitationIgnore, hdup]
        have hloop : inviteLoop send (fun _ _ => false) clientId (opId :: rest) invs
            = ((inviteLoop send (fun _ _ => false) clientId rest
                  (invs ++ [⟨opId, clientId, m⟩])).1,
               opId :: (inviteLoop send (fun _ _ => false) clientId rest
                  (invs ++ [⟨opId, clientId, m⟩])).2.1,
               (inviteLoop send (fun _ _ => false) clientId rest
                  (invs ++ [⟨opId, clientId, m⟩])).2.2.1,
               (inviteLoop send (fun _ _ => false) clientId rest
                  (invs ++ [⟨opId, clientId, m⟩])).2.2.2) := by
          show (match inviteOperatorToClient send (fun _ _ => false) invs opId clientId with
                | out => (if out.raised then _ else _)) = _
          rw [hout]
          rfl
        have hclean' : ∀ o ∈ rest,
            (invs ++ [(⟨opId, clientId, m⟩ : Invitation)]).any
              (invMatches o clientId) = false := by
          intro o ho
          have h1 := hclean o (List.mem_cons_of_mem _ ho)
          have hne : opId ≠ o := fun h => hnotin (h ▸ ho)
          rw [List.any_append, h1]
          simp [invMatches, hne]
        obtain ⟨ih1, ih2, ih3, ih4⟩ := ih (invs ++ [⟨opId, clientId, m⟩]) hnd' hclean'
        rw [hloop]
        refine ⟨ih1, ih2, ?_, ?_⟩
        · intro x
          rw [List.mem_cons, ih3 x]
          constructor
          · rintro (heq | ⟨hx, hs⟩)
            · subst heq
              exact ⟨List.mem_cons_self _ _, by rw [hsend]; rfl⟩
            · exact ⟨List.mem_cons_of_mem _ hx, hs⟩
          · rintro ⟨hx, hs⟩
            rcases List.mem_cons.1 hx with heq | hx'
            · exact Or.inl heq
            · exact Or.inr ⟨hx', hs⟩
        · intro r
          rw [ih4 r]
          rw [List.mem_append, List.mem_singleton]
          constructor
          · rintro ((hr | heq) | ⟨hc, hop, hs⟩)
            · exact Or.inl hr
            · subst heq
              exact Or.inr ⟨rfl, List.mem_cons_self _ _, by rw [hsend]⟩
            · exact Or.inr ⟨hc, List.mem_cons_of_mem _ hop, hs⟩
          · rintro (hr | ⟨hc, hop, hs⟩)
            · exact Or.inl (Or.inl hr)
            · rcases List.mem_cons.1 hop with heq | hop'
              · refine Or.inl (Or.inr ?_)
                rw [heq, hsend] at hs
                cases r
                simp only at hc heq hs ⊢
                rw [hc, heq, Option.some.inj hs]
              · exact Or.inr ⟨hc, hop', hs⟩

/-- C4 counterexample: operator 9 occupies the pairing record `(9, null)`
as its client (a pending request), so per the claim it must receive no
notice for client 5 — yet the query fetches 9 (the left join with
`WHERE conversations.operator_chat_id IS NULL` passes a matched record
whose operator is null), and the notice is delivered. -/
theorem claim_C4_counterexample :
    selectedOperators [⟨9, true⟩] [⟨9, none⟩] [] 5 = [9] ∧
    (∃ r ∈ ([⟨9, none⟩] : PairingState), r.client = 9 ∨ r.operator = some 9) ∧
    (inviteToClient (fun _ _ => some 42) (fun _ _ => false)
       [⟨9, true⟩] [⟨9, none⟩] [] 5).2.1 = [9] := by decide

/-- C4 (amended): `invite_client(client_id)` fetches exactly the users
who are operators, are not `client_id`, are not the operator side of any
pairing record and have no record with a non-null operator touching them
(a pending requester — a record with null operator — is still fetched),
and hold no live invitation for `client_id`; delivery is attempted for
exactly that set, and for every successful delivery an invitation row is
inserted (none retracted, no error raised). -/
theorem claim_C4_invite_to_client_outcomes (send : Int → Int → Option Int)
    (users : List User) (convs : PairingState) (invs : List Invitation)
    (clientId : Int) (husers : (users.map User.chatId).Nodup)
    (hconv : StateInv convs) :
    (∀ uId : Int, uId ∈ selectedOperators users convs invs clientId ↔
      ((∃ u ∈ users, u.chatId = uId ∧ u.isOperator = true) ∧
       uId ≠ clientId ∧
       (∀ r ∈ convs, (r.client = uId ∨ r.operator = some uId) →
          r.operator = none) ∧
       ¬∃ i ∈ invs, i.operator = uId ∧ i.client = clientId)) ∧
    (inviteToClient send (fun _ _ => false) users convs invs clientId).2.2.2
      = false ∧
    (inviteToClient send (fun _ _ => false) users convs invs clientId).2.2.1
      = [] ∧
    (∀ opId : Int,
      opId ∈ (inviteToClient send (fun _ _ => false) users convs invs
                clientId).2.1 ↔
        (opId ∈ selectedOperators users convs invs clientId ∧
         (send opId clientId).isSome = true)) ∧
    (∀ r : Invitation,
      r ∈ (inviteToClient send (fun _ _ => false) users convs invs
            clientId).1 ↔
        (r ∈ invs ∨ (r.client = clientId ∧
          r.operator ∈ selectedOperators users convs invs clientId ∧
          send r.operator clientId = some r.messageId))) := by
  have hsel := fun uId =>
    selectedOperators_mem_iff users convs invs clientId uId hconv
  have hnd := selectedOperators_nodup users convs invs clientId husers hconv
  have hclean : ∀ opId ∈ selectedOperators users convs invs clientId,
      invs.any (invMatches opId clientId) = false := by
    intro opId hop
    have h := (hsel opId).1 hop
    rw [List.any_eq_false]
    intro i hi hb
    rw [invMatches, Bool.and_eq_true, beq_iff_eq, beq_iff_eq] at hb
    exact h.2.2.2 ⟨i, hi, hb.1, hb.2⟩
  obtain ⟨h1, h2, h3, h4⟩ := inviteLoop_no_fault send clientId
    (selectedOperators users convs invs clientId) invs hnd hclean
  exact ⟨hsel, h1, h2, h3, h4⟩

/-- Witness for C4 (amended): one free operator 9, empty store and
ledger; the notice to 9 is delivered and recorded. -/
theorem claim_C4_invite_to_client_outcomes_witness :
    (9 : Int) ∈ (inviteToClient (fun _ _ => some 42) (fun _ _ => false)
        [⟨9, true⟩] [] [] 5).2.1 ∧
    (⟨9, 5, 42⟩ : Invitation) ∈ (inviteToClient (fun _ _ => some 42)
        (fun _ _ => false) [⟨9, true⟩] [] [] 5).1 :=
  ⟨((claim_C4_invite_to_client_outcomes (fun _ _ => some 42) [⟨9, true⟩]
        [] [] 5 (by decide) (by decide)).2.2.2.1 9).2 ⟨by decide, rfl⟩,
   ((claim_C4_invite_to_client_outcomes (fun _ _ => some 42) [⟨9, true⟩]
        [] [] 5 (by decide) (by decide)).2.2.2.2 ⟨9, 5, 42⟩).2
     (Or.inr ⟨rfl, by decide, rfl⟩)⟩

/-- C5: recording a delivered notice uses upsert-ignore on the
`(operator_id, client_id)` key; a duplicate drop retracts the just-sent
notice, any other storage error retracts it before being re-raised, and
consequently every delivered notice is either retracted or backed by a
ledger row, and every new ledger row corresponds to the delivered
notice. -/
theorem claim_C5_invitation_leak_protection (send : Int → Int → Option Int)
    (storageFault : Int → Int → Bool) (invs : List Invitation)
    (opId clientId : Int) :
    ((inviteOperatorToClient send storageFault invs opId clientId).deliveredMsg
      = send opId clientId) ∧
    (∀ m : Int, send opId clientId = some m →
      storageFault opId clientId = true →
      (inviteOperatorToClient send storageFault invs opId clientId).retracted
          = true ∧
      (inviteOperatorToClient send storageFault invs opId clientId).raised
          = true ∧
      (inviteOperatorToClient send storageFault invs opId clientId).invs
          = invs) ∧
    (∀ m : Int, send opId clientId = some m →
      storageFault opId clientId = false →
      invs.any (invMatches opId clientId) = true →
      (inviteOperatorToClient send storageFault invs opId clientId).retracted
          = true ∧
      (inviteOperatorToClient send storageFault invs opId clientId).raised
          = false ∧
      (inviteOperatorToClient send storageFault invs opId clientId).invs
          = invs) ∧
    (∀ m : Int,
      (inviteOperatorToClient send storageFault invs opId clientId).deliveredMsg
          = some m →
      (inviteOperatorToClient send storageFault invs opId clientId).retracted
          = true ∨
      (⟨opId, clientId, m⟩ : Invitation)
          ∈ (inviteOperatorToClient send storageFault invs opId clientId).invs) ∧
    (∀ r : Invitation,
      r ∈ (inviteOperatorToClient send storageFault invs opId clientId).invs →
      r ∈ invs ∨
      ((inviteOperatorToClient send storageFault invs opId clientId).deliveredMsg
          = some r.messageId ∧ r.operator = opId ∧ r.client = clientId)) := by
  rcases hsend : send opId clientId with _ | m
  · have hout : inviteOperatorToClient send storageFault invs opId clientId
        = ⟨invs, none, false, false⟩ := by
      simp [inviteOperatorToClient, hsend]
    rw [hout]
    refine ⟨rfl, ?_, ?_, ?_, ?_⟩
    · intro m hm _
      cases hm
    · intro m hm _ _
      cases hm
    · intro m hm
      cases hm
    · intro r hr
      exact Or.inl hr
  · rcases hfault : storageFault opId clientId with _ | _
    · rcases hdup : invs.any (invMatches opId clientId) with _ | _
      · have hout : inviteOperatorToClient send storageFault invs opId clientId
            = ⟨invs ++ [⟨opId, clientId, m⟩], some m, false, false⟩ := by
          simp [inviteOperatorToClient, hsend, hfault, insertInvitationIgnore, hdup]
        rw [hout]
        refine ⟨rfl, ?_, ?_, ?_, ?_⟩
        · intro m' _ hf
          cases hf
        · intro m' _ _ hd
          cases hd
        · intro m' hm'
          refine Or.inr ?_
          rw [List.mem_append, List.mem_singleton]
          exact Or.inr (by rw [Option.some.inj hm'])
        · intro r hr
          rw [List.mem_append, List.mem_singleton] at hr
          rcases hr with hr | hr
          · exact Or.inl hr
          · subst hr
            exact Or.inr ⟨rfl, rfl, rfl⟩
      · have hout : inviteOperatorToClient send storageFault invs opId clientId
            = ⟨invs, some m, true, false⟩ := by
          simp [inviteOperatorToClient, hsend, hfault, insertInvitationIgnore, hdup]
        rw [hout]
        refine ⟨rfl, ?_, ?_, ?_, ?_⟩
        · intro m' _ hf
          cases hf
        · intro m' _ _ _
          exact ⟨rfl, rfl, rfl⟩
        · intro m' _
          exact Or.inl rfl
        · intro r hr
          exact Or.inl hr
    · have hout : inviteOperatorToClient send storageFault invs opId clientId
          = ⟨invs, some m, true, true⟩ := by
        simp [inviteOperatorToClient, hsend, hfault]
      rw [hout]
      refine ⟨rfl, ?_, ?_, ?_, ?_⟩
      · intro m' _ _
        exact ⟨rfl, rfl, rfl⟩
      · intro m' _ hf _
        cases hf
      · intro m' _
        exact Or.inl rfl
      · intro r hr
        exact Or.inl hr

/-- Witness for C5: a duplicate drop retracts the notice; a storage fault
retracts the notice and re-raises. -/
theorem claim_C5_invitation_leak_protection_witness :
    ((inviteOperatorToClient (fun _ _ => some 42) (fun _ _ => false)
        [⟨9, 5, 7⟩] 9 5).retracted = true ∧
     (inviteOperatorToClient (fun _ _ => some 42) (fun _ _ => false)
        [⟨9, 5, 7⟩] 9 5).raised = false ∧
     (inviteOperatorToClient (fun _ _ => some 42) (fun _ _ => false)
        [⟨9, 5, 7⟩] 9 5).invs = [⟨9, 5, 7⟩]) ∧
    ((inviteOperatorToClient (fun _ _ => some 42) (fun _ _ => true)
        [] 9 5).retracted = true ∧
     (inviteOperatorToClient (fun _ _ => some 42) (fun _ _ => true)
        [] 9 5).raised = true ∧
     (inviteOperatorToClient (fun _ _ => some 42) (fun _ _ => true)
        [] 9 5).invs = []) :=
  ⟨(claim_C5_invitation_leak_protection (fun _ _ => some 42)
      (fun _ _ => false) [⟨9, 5, 7⟩] 9 5).2.2.1 42 rfl rfl (by decide),
   (claim_C5_invitation_leak_protection (fun _ _ => some 42)
      (fun _ _ => true) [] 9 5).2.1 42 rfl rfl⟩

/-! ## Coordinator (`helpline_telegraph/core/chat_bot_core.py`) -/

/-- Invitation-ledger effects the coordinator orders after an
end-or-cancel. -/
inductive CoordEffect where
  | inviteOperator (chatId : Int)
  | retractForClient (chatId : Int)
deriving DecidableEq, Repr

/-- Modelled from the spec: the `helpline_telegraph` variant of
`ConversationsController.end_conversation_or_cancel_request_with_plocking`
is not among the provided sources — only its caller in
`helpline_telegraph/core/chat_bot_core.py` is, which unpacks its yield as
`(client_chat_id, operator_chat_id)`.  Per spec §4.1, `end_or_cancel`
deletes the record keyed by the client id and returns which pairing
existed before deletion, atomically via a delete-returning statement; the
yielded pair is the pre-deletion `(client_id, operator_id)`, or
`(null, null)` when no record was keyed by the client id. -/
def endOrCancelPair (s : PairingState) (c : Int) :
    (Option Int × Option Int) × PairingState :=
  match s.find? (fun r => r.client == c) with
  | some r => ((some r.client, r.operator), s.filter (fun r' => r'.client != c))
  | none => ((none, none), s)

/-- The dispatch of
`ChatBotCore.end_conversation_or_cancel_request_with_plocking`
(helpline_telegraph/core/chat_bot_core.py:61-75): on a non-null operator,
re-invite that operator, and also the freed client when the client is an
operator; else, on a non-null client (a cancelled pending request),
retract the invitations to that client. -/
def coordinatorEndEffects (isOperator : Int → Bool)
    (res : Option Int × Option Int) : List CoordEffect :=
  match res with
  | (clientId?, some operatorId) =>
      CoordEffect.inviteOperator operatorId ::
        (match clientId? with
         | some cId =>
             if isOperator cId then [CoordEffect.inviteOperator cId] else []
         | none => [])
  | (some clientId, none) => [CoordEffect.retractForClient clientId]
  | (none, none) => []

/-- The Coordinator's `end_or_cancel(client_id)`: store-level delete, then
the invitation effects computed from its result. -/
def coordinatorEndOrCancel (isOperator : Int → Bool) (s : PairingState)
    (c : Int) : List CoordEffect × PairingState :=
  (coordinatorEndEffects isOperator (endOrCancelPair s c).1,
   (endOrCancelPair s c).2)

/-- C3: after the store-level delete, a CANCELLED result (a pending
request `(c, null)` was removed) retracts the invitations for `c`; an
ENDED result re-invites the freed operator, and additionally re-invites
the freed client `c` exactly when `c` itself is an operator; a NONE
result orders no effect. -/
theorem claim_C3_coordinator_end_effects (isOperator : Int → Bool)
    (s : PairingState) (c : Int)
    (hpw : s.Pairwise (fun a b => a.client ≠ b.client)) :
    ((⟨c, none⟩ : PairingRow) ∈ s →
      (coordinatorEndOrCancel isOperator s c).1
        = [CoordEffect.retractForClient c]) ∧
    (∀ o : Int, (⟨c, some o⟩ : PairingRow) ∈ s →
      (coordinatorEndOrCancel isOperator s c).1
        = CoordEffect.inviteOperator o ::
            (if isOperator c then [CoordEffect.inviteOperator c] else [])) ∧
    ((∀ r ∈ s, r.client ≠ c) →
      (coordinatorEndOrCancel isOperator s c).1 = []) := by
  refine ⟨?_, ?_, ?_⟩
  · intro hmem
    unfold coordinatorEndOrCancel endOrCancelPair
    rw [find?_client_eq hpw hmem rfl]
    rfl
  · intro o hmem
    unfold coordinatorEndOrCancel endOrCancelPair
    rw [find?_client_eq hpw hmem rfl]
    rfl
  · intro hnone
    unfold coordinatorEndOrCancel endOrCancelPair
    rw [List.find?_eq_none.2 (fun r hr hb => hnone r hr (by simpa using hb))]
    rfl

/-- Witness for C3: a cancelled request, an ended conversation whose
client is an operator, an ended conversation whose client is not, and an
absent record. -/
theorem claim_C3_coordinator_end_effects_witness :
    (coordinatorEndOrCancel (fun _ => false) [⟨5, none⟩] 5).1
      = [CoordEffect.retractForClient 5] ∧
    (coordinatorEndOrCancel (fun u => u == 5) [⟨5, some 9⟩] 5).1
      = [CoordEffect.inviteOperator 9, CoordEffect.inviteOperator 5] ∧
    (coordinatorEndOrCancel (fun _ => false) [⟨5, some 9⟩] 5).1
      = [CoordEffect.inviteOperator 9] ∧
    (coordinatorEndOrCancel (fun _ => false) ([] : PairingState) 5).1 = [] :=
  ⟨(claim_C3_coordinator_end_effects (fun _ => false) [⟨5, none⟩] 5
      (by decide)).1 (by decide),
   (claim_C3_coordinator_end_effects (fun u => u == 5) [⟨5, some 9⟩] 5
      (by decide)).2.1 9 (by decide),
   (claim_C3_coordinator_end_effects (fun _ => false) [⟨5, some 9⟩] 5
      (by decide)).2.1 9 (by decide),
   (claim_C3_coordinator_end_effects (fun _ => false) [] 5
      (by decide)).2.2 (by simp)⟩

/-! ## Transactional session accessor
(`anonymous_helpline_chatbot/core/db_connector.py`) -/

/-- `DatabaseConnectionPool.PrettyCursor` (db_connector.py:21-30) as a
scope runner over an abstract session state: the body either finishes
with a new pending state, or raises carrying the pending state at the
moment of the exception.  The Python code is `try: yield cursor finally:
cursor.close(); conn.commit(); conn.close()`, so the `finally` block
closes the cursor, commits whatever statements were executed, and closes
the connection on BOTH exit paths.  Returns the committed (visible)
state, the re-raised error if any, and the two release flags
(cursor closed, connection closed). -/
def prettyCursorRun {σ ε : Type} (committed : σ)
    (body : σ → Except (ε × σ) σ) : σ × Option ε × Bool × Bool :=
  match body committed with
  | .ok s' => (s', none, true, true)
  | .error (e, sp) => (sp, some e, true, true)

/-- C6 counterexample: a scope body that inserts the pairing row `(1,
null)` and then raises leaves the row committed — the visible state after
the exceptional exit is the partial state, not the original one, because
the `finally` block commits on every path. -/
theorem claim_C6_counterexample :
    (prettyCursorRun ([] : PairingState)
        (fun s => Except.error ((), s ++ [⟨1, none⟩]))).1 = [⟨1, none⟩] ∧
    (prettyCursorRun ([] : PairingState)
        (fun s => Except.error ((), s ++ [⟨1, none⟩]))).1 ≠ [] := by
  constructor
  · rfl
  · intro h
    cases h

/-- C6 (amended): on normal exit the session's statements are committed;
when an exception propagates out of the scope, the `finally` clause still
commits, so the statements executed before the exception become visible
(there is no rollback) and the error is re-raised; on every exit path the
cursor and the connection are released. -/
theorem claim_C6_pretty_cursor_paths {σ ε : Type} (start : σ)
    (body : σ → Except (ε × σ) σ) :
    (∀ s' : σ, body start = .ok s' →
      prettyCursorRun start body = (s', none, true, true)) ∧
    (∀ (e : ε) (sp : σ), body start = .error (e, sp) →
      prettyCursorRun start body = (sp, some e, true, true)) := by
  constructor
  · intro s' h
    unfold prettyCursorRun
    rw [h]
  · intro e sp h
    unfold prettyCursorRun
    rw [h]

/-- Witness for C6 (amended): a committing body and a raising body over
the pairing state. -/
theorem claim_C6_pretty_cursor_paths_witness :
    prettyCursorRun ([] : PairingState)
        (fun s => (Except.ok (s ++ [⟨1, none⟩]) : Except (Unit × PairingState) PairingState))
      = ([⟨1, none⟩], none, true, true) ∧
    prettyCursorRun ([] : PairingState)
        (fun s => (Except.error ((), s ++ [⟨1, none⟩]) : Except (Unit × PairingState) PairingState))
      = ([⟨1, none⟩], some (), true, true) :=
  ⟨(claim_C6_pretty_cursor_paths ([] : PairingState)
      (fun s => Except.ok (s ++ [⟨1, none⟩]))).1 [⟨1, none⟩] rfl,
   (claim_C6_pretty_cursor_paths ([] : PairingState)
      (fun s => Except.error ((), s ++ [⟨1, none⟩]))).2 () [⟨1, none⟩] rfl⟩

example : (requestConversation [] 5).1 = 0 := by decide
example : (requestConversation [] 5).2 = [⟨5, none⟩] := by decide
example : (requestConversation [⟨5, none⟩] 5).1 = 1 := by decide
example : (beginConversation [⟨5, none⟩] 5 9).1 = 0 := by decide
example : (beginConversation [⟨5, none⟩] 5 9).2 = [⟨5, some 9⟩] := by decide
example : (beginConversation [⟨5, some 7⟩] 5 9).1 = 5 := by decide
example : (beginConversation [⟨3, some 5⟩] 5 9).1 = 1 := by decide
example : (beginConversation [⟨9, none⟩] 5 9).1 = 2 := by decide
example : (beginConversation [⟨9, some 4⟩] 5 9).1 = 3 := by decide
example : (beginConversation [⟨3, some 9⟩] 5 9).1 = 4 := by decide
example : (endOrCancel [⟨5, some 9⟩] 5).1 = some 9 := by decide
example : (endOrCancel [⟨5, none⟩] 5).1 = some (-1) := by decide
example : (endOrCancel [⟨5, some 0⟩] 5).1 = some (-1) := by decide
example : (endOrCancel [] 5).1 = none := by decide
example : StateInv [⟨5, some 9⟩, ⟨3, none⟩] := by decide

end Helpline
